import Mathlib

/-!
Verification development for the skill extraction, indexing and matching core
of the GW_TAI_NLx_Job_Posting repository.

The Python sources embedded here are:
  * hackathon/core/nlp_pipeline.py  (text normalizer, catalog builder,
    mention extractor, requirements inference)
  * hackathon/core/matching.py      (matching index / query engine, skill gap)
  * hackathon/core/data.py          (artifact caching policy in load_data)

Modelling conventions:
  * pandas DataFrames become typed Lean lists of structures (rows);
  * Python strings become Lean `String`s (ASCII-faithful: `toLower`,
    `Char.isAlphanum` agree with the Python behaviour on the ASCII texts the
    regexes target);
  * the regular expressions in nlp_pipeline.py are compiled by hand into
    decidable word-boundary matchers over `List Char` (every alternation is
    expanded into its literal alternatives, `\s` into the six ASCII
    whitespace characters, and the backtracking choice points of the
    experience pattern into ordered alternative lists);
  * floats (similarity scores) become rationals `ℚ`;
  * the external sklearn TF-IDF vectorizer is not repository code: the
    similarity rows it produces are taken as explicit inputs of the embedded
    extractor and query engine, and the unstable numpy/pandas sorts are
    modelled by the deterministic stable sort obtained from an antisymmetric
    lexicographic comparator (score, then position).
-/

/-! ### Character classes (Python `re` semantics, ASCII fragment) -/

/-- Python regex `\s` on ASCII: the six whitespace characters. -/
def pyIsSpace (c : Char) : Bool :=
  c = ' ' || c = '\t' || c = '\n' || c = '\r' || c = '\x0b' || c = '\x0c'

/-- Python regex `\w` on ASCII: alphanumerics and underscore. -/
def isWordChar (c : Char) : Bool :=
  c.isAlphanum || c = '_'

def isWordOpt : Option Char → Bool
  | some c => isWordChar c
  | none => false

/-- Python `str.lower()` (agrees with it on ASCII text). -/
def pyToLower (s : String) : String :=
  String.mk (s.toList.map Char.toLower)

/-- `\b` between two (possibly absent) adjacent characters. -/
def isBoundary (a b : Option Char) : Bool :=
  isWordOpt a != isWordOpt b

/-! ### `_normalize_text` -/

/-- First substitution of `_normalize_text`: any character that is neither an
ASCII alphanumeric nor whitespace is replaced by a space; combined with the
second substitution every whitespace character ends up as a plain space. -/
def keepAlnum (c : Char) : Char :=
  if c.isAlphanum then c else ' '

/-- Collapse runs of spaces to a single space (the `\s+` → `" "` step). -/
def squeezeSpaces : List Char → List Char
  | [] => []
  | [c] => [c]
  | a :: b :: rest =>
      if a = ' ' && b = ' ' then squeezeSpaces (b :: rest)
      else a :: squeezeSpaces (b :: rest)

def trimSpaces (cs : List Char) : List Char :=
  ((cs.dropWhile (· = ' ')).reverse.dropWhile (· = ' ')).reverse

/-- `_normalize_text` from nlp_pipeline.py: lowercase, replace every
non-alphanumeric character by a space, collapse whitespace, strip. -/
def normalizeText (s : String) : String :=
  String.mk (trimSpaces (squeezeSpaces ((pyToLower s).toList.map keepAlnum)))

/-- Python `str.strip()` (ASCII whitespace). -/
def pyStrip (s : String) : String :=
  String.mk (((s.toList.dropWhile pyIsSpace).reverse.dropWhile pyIsSpace).reverse)

/-- Python `str.split()` with no argument: split on whitespace runs,
discarding empty pieces.  `acc` accumulates the current token reversed. -/
def splitWsAux : List Char → List Char → List String
  | [], acc => if acc.isEmpty then [] else [String.mk acc.reverse]
  | c :: rest, acc =>
      if pyIsSpace c then
        if acc.isEmpty then splitWsAux rest []
        else String.mk acc.reverse :: splitWsAux rest []
      else splitWsAux rest (c :: acc)

/-- Python `str.split()`. -/
def pySplitWs (s : String) : List String :=
  splitWsAux s.toList []

/-- Python substring test `needle in hay` on lists of characters. -/
def substrAux (n : List Char) : List Char → Bool
  | [] => n.isEmpty
  | c :: rest => n.isPrefixOf (c :: rest) || substrAux n rest

/-- Python substring test `needle in hay`. -/
def containsSubstr (needle hay : String) : Bool :=
  substrAux needle.toList hay.toList

/-! ### Literal search with word boundaries

Each education / entry-level regex is of the shape `\b(alt|alt|…)\b` where
every alternative is (after expanding optional characters) a literal string,
so `pattern.search(text)` is: some literal occurs in the text with a `\b`
boundary on each side. -/

/-- Does `lit` occur at the current position (`cs`), with `prev` the character
just before that position, satisfying both outer `\b` boundaries? -/
def litHereB (lit : List Char) (prev : Option Char) (cs : List Char) : Bool :=
  lit.isPrefixOf cs && isBoundary prev cs.head? &&
    isBoundary lit.getLast? ((cs.drop lit.length).head?)

def litSearchAux (lit : List Char) : Option Char → List Char → Bool
  | _, [] => false
  | prev, c :: rest => litHereB lit prev (c :: rest) || litSearchAux lit (some c) rest

/-- `re.search` for a single boundary-delimited literal. -/
def litFound (lit : String) (text : List Char) : Bool :=
  litSearchAux lit.toList none text

/-- `re.search` for `\b(l₁|l₂|…)\b` (existence only, so order is irrelevant). -/
def patternFound (lits : List String) (text : List Char) : Bool :=
  lits.any (fun l => litFound l text)

/-! ### `EDUCATION_PATTERNS` -/

def apos : Char := '\''

/-- Expansion of `a\s?b`: no whitespace, or one ASCII whitespace character. -/
def wsVariants (a b : String) : List String :=
  [a ++ b, a ++ " " ++ b, a ++ "\t" ++ b, a ++ "\n" ++ b, a ++ "\r" ++ b,
   a ++ "\x0b" ++ b, a ++ "\x0c" ++ b]

/-- `\b(ph\.?d|doctorate|doctoral)\b` -/
def doctorateLits : List String := ["ph.d", "phd", "doctorate", "doctoral"]

/-- `\b(master'?s|mba|m\.s\.|m\s?s\b|m\.a\.|m\s?a\b)\b` -/
def mastersLits : List String :=
  ["master" ++ apos.toString ++ "s", "masters", "mba", "m.s."] ++
    wsVariants "m" "s" ++ ["m.a."] ++ wsVariants "m" "a"

/-- `\b(bachelor'?s|b\.s\.|b\s?s\b|b\.a\.|b\s?a\b|undergraduate degree)\b` -/
def bachelorsLits : List String :=
  ["bachelor" ++ apos.toString ++ "s", "bachelors", "b.s."] ++
    wsVariants "b" "s" ++ ["b.a."] ++ wsVariants "b" "a" ++ ["undergraduate degree"]

/-- `\bassociate'?s\b` -/
def associateLits : List String :=
  ["associate" ++ apos.toString ++ "s", "associates"]

/-- `\b(high school|ged|secondary school)\b` -/
def highSchoolLits : List String := ["high school", "ged", "secondary school"]

/-- `\b(certification|certificate)\b` -/
def certificationLits : List String := ["certification", "certificate"]

/-- `EDUCATION_PATTERNS` from nlp_pipeline.py, in priority order. -/
def educationPatterns : List (List String × String) :=
  [ (doctorateLits, "Doctorate"),
    (mastersLits, "Master" ++ apos.toString ++ "s Degree"),
    (bachelorsLits, "Bachelor" ++ apos.toString ++ "s Degree"),
    (associateLits, "Associate Degree"),
    (highSchoolLits, "High School Diploma/GED"),
    (certificationLits, "Certification") ]

/-- `_infer_education_from_text`: first pattern (in list order) that matches
wins; `re.IGNORECASE` is modelled by lowercasing the text (the literals are
lowercase). -/
def inferEducationFromText (text : String) : String :=
  let lowered := (pyToLower text).toList
  (educationPatterns.findSome? fun p =>
    if patternFound p.1 lowered then some p.2 else none).getD ""

/-! ### The experience pattern

`\b(\d{1,2})\s*(?:\+|plus)?\s*(?:-|to)?\s*(\d{1,2})?\s*(years|year|yrs|yr|months|month|mos|mo)\b`

The only choice points that require backtracking are the two digit groups
(greedy `{1,2}` and the greedy optional second group) and the unit
alternation: the `\s*` gaps are maximal-munch safe because no subsequent
token can start with whitespace, and the optional `+`/`plus` and `-`/`to`
markers are deterministic because no later token can start with the
characters they consume. -/

def isDigitChar (c : Char) : Bool := c.isDigit

/-- Greedy alternatives for `(\d{1,2})`: two digits first, then one. -/
def digitAlts (cs : List Char) : List (String × List Char) :=
  match cs with
  | a :: b :: rest =>
      if isDigitChar a && isDigitChar b then
        [(String.mk [a, b], rest), (String.mk [a], b :: rest)]
      else if isDigitChar a then [(String.mk [a], b :: rest)] else []
  | [a] => if isDigitChar a then [(String.mk [a], [])] else []
  | [] => []

/-- Greedy alternatives for `(\d{1,2})?`; `""` encodes an absent group
(the group can never capture an empty string, so this is unambiguous). -/
def group2Alts (cs : List Char) : List (String × List Char) :=
  digitAlts cs ++ [("", cs)]

/-- `(?:\+|plus)?` -/
def skipPlusOpt (cs : List Char) : List Char :=
  match cs with
  | '+' :: r => r
  | 'p' :: 'l' :: 'u' :: 's' :: r => r
  | _ => cs

/-- `(?:-|to)?` -/
def skipDashOpt (cs : List Char) : List Char :=
  match cs with
  | '-' :: r => r
  | 't' :: 'o' :: r => r
  | _ => cs

def unitAlternatives : List String :=
  ["years", "year", "yrs", "yr", "months", "month", "mos", "mo"]

/-- `(years|year|…|mo)\b` at the current position, trying the alternatives in
pattern order. -/
def tryUnit (cs : List Char) : Option String :=
  unitAlternatives.findSome? fun u =>
    if u.toList.isPrefixOf cs &&
        isBoundary u.toList.getLast? ((cs.drop u.toList.length).head?) then
      some u
    else none

/-- Match the experience pattern at the current position (`\b` before the
first digit is checked by the caller); returns `(group 1, group 2, group 3)`
with `""` for an absent group 2. -/
def expMatchCore (cs : List Char) : Option (String × String × String) :=
  (digitAlts cs).findSome? fun d1r =>
    let r2 := d1r.2.dropWhile pyIsSpace
    let r4 := (skipPlusOpt r2).dropWhile pyIsSpace
    let r6 := (skipDashOpt r4).dropWhile pyIsSpace
    (group2Alts r6).findSome? fun d2r =>
      let r8 := d2r.2.dropWhile pyIsSpace
      match tryUnit r8 with
      | some u => some (d1r.1, d2r.1, u)
      | none => none

/-- `re.search` for the experience pattern: leftmost matching position. -/
def expSearchAux : Option Char → List Char → Option (String × String × String)
  | _, [] => none
  | prev, c :: rest =>
      match (if isBoundary prev (some c) then expMatchCore (c :: rest) else none) with
      | some m => some m
      | none => expSearchAux (some c) rest

/-! ### `ENTRY_LEVEL_PATTERN`

`\b(entry level|no experience|0\s*years?|fresh graduate|new grad)\b` -/

def entryLevelLits : List String :=
  ["entry level", "no experience", "fresh graduate", "new grad"]

def boundaryAfterWordChar (rest : List Char) : Bool :=
  match rest.head? with
  | some c => !isWordChar c
  | none => true

/-- The `0\s*years?` alternative (with the outer boundaries) at the current
position. -/
def zeroYearsHere (prev : Option Char) (cs : List Char) : Bool :=
  match cs with
  | '0' :: r =>
      isBoundary prev (some '0') &&
        (match r.dropWhile pyIsSpace with
         | 'y' :: 'e' :: 'a' :: 'r' :: r3 =>
             (match r3 with
              | 's' :: r4 => boundaryAfterWordChar r4
              | _ => boundaryAfterWordChar r3)
         | _ => false)
  | _ => false

def zeroYearsSearch : Option Char → List Char → Bool
  | _, [] => false
  | prev, c :: rest => zeroYearsHere prev (c :: rest) || zeroYearsSearch (some c) rest

def entryLevelFound (text : List Char) : Bool :=
  patternFound entryLevelLits text || zeroYearsSearch none text

/-- `_infer_experience_from_text` from nlp_pipeline.py. -/
def inferExperienceFromText (text : String) : String :=
  let lowered := (pyToLower text).toList
  if entryLevelFound lowered then "Entry level / no experience"
  else
    match expSearchAux none lowered with
    | some (mn, mx, u) =>
        let normalizedUnit :=
          if containsSubstr "year" u || containsSubstr "yr" u then "years" else "months"
        if mx = "" then mn ++ " " ++ normalizedUnit
        else mn ++ "-" ++ mx ++ " " ++ normalizedUnit
    | none => ""

/-! ### `infer_education_and_experience` -/

/-- `_normalize_existing_requirement`. -/
def normalizeExistingRequirement (value : String) : String :=
  let text := pyStrip value
  if text = "" || pyToLower text = "nan" || pyToLower text = "none" || pyToLower text = "null" then ""
  else text

/-- One row of the `jobs_clean` table, restricted to the fields the inference
reads (missing columns are synthesised as `""` by the source, so every field
is total here). -/
structure PostingRow where
  system_job_id : String
  title : String
  description : String
  requirements_min_education : String
  requirements_experience : String
deriving DecidableEq, Repr

/-- One row of the requirements profile produced by
`infer_education_and_experience`. -/
structure RequirementsRow where
  system_job_id : String
  education_display : String
  education_source : String
  experience_display : String
  experience_source : String
deriving DecidableEq, Repr

/-- The per-row body of the loop in `infer_education_and_experience`. -/
def inferRequirementsRow (row : PostingRow) : RequirementsRow :=
  let rawEducation := normalizeExistingRequirement row.requirements_min_education
  let rawExperience := normalizeExistingRequirement row.requirements_experience
  let sourceText := row.title ++ " " ++ row.description
  let inferredEducation :=
    if rawEducation = "" then inferEducationFromText sourceText else rawEducation
  let inferredExperience :=
    if rawExperience = "" then inferExperienceFromText sourceText else rawExperience
  { system_job_id := row.system_job_id
    education_display := inferredEducation
    education_source :=
      if rawEducation ≠ "" then "dataset"
      else if inferredEducation ≠ "" then "nlp_inferred" else "not_specified"
    experience_display := inferredExperience
    experience_source :=
      if rawExperience ≠ "" then "dataset"
      else if inferredExperience ≠ "" then "nlp_inferred" else "not_specified" }

/-- `infer_education_and_experience` from nlp_pipeline.py. -/
def inferEducationAndExperience (rows : List PostingRow) : List RequirementsRow :=
  rows.map inferRequirementsRow

/-! ### Sorting comparators

numpy's `argsort` and pandas' `sort_values` / `value_counts` order by a key;
their tie behaviour is modelled as the stable order (original position wins),
realised here by an antisymmetric lexicographic comparator so the sorted
result is uniquely determined. -/

/-- Descending by `key`, ties broken by ascending `pos`. -/
def byKeyDesc {α β : Type} [LinearOrder β] (key : α → β) (pos : α → Nat) : α → α → Prop :=
  fun a b => key b < key a ∨ (key a = key b ∧ pos a ≤ pos b)

/-- Ascending by `key`, ties broken by ascending `pos`. -/
def byKeyAsc {α β : Type} [LinearOrder β] (key : α → β) (pos : α → Nat) : α → α → Prop :=
  fun a b => key a < key b ∨ (key a = key b ∧ pos a ≤ pos b)

instance {α β : Type} [LinearOrder β] (key : α → β) (pos : α → Nat) :
    DecidableRel (byKeyDesc key pos) := fun a b => by
  unfold byKeyDesc; infer_instance

instance {α β : Type} [LinearOrder β] (key : α → β) (pos : α → Nat) :
    DecidableRel (byKeyAsc key pos) := fun a b => by
  unfold byKeyAsc; infer_instance

instance {α β : Type} [LinearOrder β] (key : α → β) (pos : α → Nat) :
    IsTotal α (byKeyDesc key pos) := by
  constructor
  intro a b
  rcases lt_trichotomy (key a) (key b) with h | h | h
  · exact Or.inr (Or.inl h)
  · rcases Nat.le_total (pos a) (pos b) with hp | hp
    · exact Or.inl (Or.inr ⟨h, hp⟩)
    · exact Or.inr (Or.inr ⟨h.symm, hp⟩)
  · exact Or.inl (Or.inl h)

instance {α β : Type} [LinearOrder β] (key : α → β) (pos : α → Nat) :
    IsTrans α (byKeyDesc key pos) := by
  constructor
  intro a b c hab hbc
  rcases hab with h1 | ⟨h1, p1⟩
  · rcases hbc with h2 | ⟨h2, _⟩
    · exact Or.inl (h2.trans h1)
    · exact Or.inl (lt_of_eq_of_lt h2.symm h1)
  · rcases hbc with h2 | ⟨h2, p2⟩
    · exact Or.inl (lt_of_lt_of_eq h2 h1.symm)
    · exact Or.inr ⟨h1.trans h2, p1.trans p2⟩

instance {α β : Type} [LinearOrder β] (key : α → β) (pos : α → Nat) :
    IsTotal α (byKeyAsc key pos) := by
  constructor
  intro a b
  rcases lt_trichotomy (key a) (key b) with h | h | h
  · exact Or.inl (Or.inl h)
  · rcases Nat.le_total (pos a) (pos b) with hp | hp
    · exact Or.inl (Or.inr ⟨h, hp⟩)
    · exact Or.inr (Or.inr ⟨h.symm, hp⟩)
  · exact Or.inr (Or.inl h)

instance {α β : Type} [LinearOrder β] (key : α → β) (pos : α → Nat) :
    IsTrans α (byKeyAsc key pos) := by
  constructor
  intro a b c hab hbc
  rcases hab with h1 | ⟨h1, p1⟩
  · rcases hbc with h2 | ⟨h2, _⟩
    · exact Or.inl (h1.trans h2)
    · exact Or.inl (lt_of_lt_of_eq h1 h2)
  · rcases hbc with h2 | ⟨h2, p2⟩
    · exact Or.inl (lt_of_eq_of_lt h1 h2)
    · exact Or.inr ⟨h1.trans h2, p1.trans p2⟩

/-! ### `build_skill_catalog` -/

/-- Keep the first occurrence of every key, dropping later rows with the same
key: pandas `drop_duplicates(keep="first")`, and the key order of a pandas
hashtable (hence of `value_counts`). -/
def pyDedupByAux {α : Type} (key : α → String) : Nat → List α → List α
  | _, [] => []
  | 0, _ :: _ => []
  | fuel + 1, x :: rest => x :: pyDedupByAux key fuel (rest.filter fun y => key y ≠ key x)

def pyDedupBy {α : Type} (key : α → String) (l : List α) : List α :=
  pyDedupByAux key l.length l

/-- The normalized, length-filtered `Taxonomy Skill` column of
`build_skill_catalog`. -/
def normalizedSkills (labels : List String) : List String :=
  (labels.map normalizeText).filter fun s => 2 < s.length

/-- `value_counts` of the normalized skills: each distinct value with its
occurrence count and its first-encounter rank. -/
def catalogCounts (labels : List String) : List (String × Nat × Nat) :=
  (pyDedupBy id (normalizedSkills labels)).enum.map fun p =>
    (p.2, (normalizedSkills labels).count p.2, p.1)

/-- `build_skill_catalog` from nlp_pipeline.py.  `labels` is the
`Taxonomy Skill` column of the processed feed (the column is present by
construction in this typed model; the source synthesises an empty catalog
when it is absent).  `value_counts` is modelled as: distinct values in
first-encounter order, stably sorted by descending count. -/
def buildSkillCatalog (labels : List String) (minFreq maxSkills : Nat) : List String :=
  let sorted :=
    List.insertionSort (byKeyDesc (fun t : String × Nat × Nat => t.2.1) (fun t => t.2.2))
      (catalogCounts labels)
  ((sorted.filter fun t => minFreq ≤ t.2.1).take maxSkills).map (fun t => t.1)

/-! ### `extract_skill_mentions_from_text`

The TF-IDF vector space and the sparse matrix product are computed by
sklearn/scipy, which are not repository code: the embedded extractor takes
each posting's similarity row against the catalog as an explicit input
(`String × List ℚ` = posting id with its dense similarity row) and performs
the repository's filtering, top-k selection, ordering and batching. -/

structure MentionRow where
  researchId : String
  taxonomySkill : String
  nlpScore : ℚ
deriving DecidableEq, Repr

/-- `.tocsr().getrow(r)`: the nonzero entries of a row, in column order. -/
def csrRow (row : List ℚ) : List (Nat × ℚ) :=
  row.enum.filter fun p => p.2 ≠ 0

/-- Per-row body of the extraction loop: threshold filter, top-k selection
(`argpartition` + `argsort(-scores)`, modelled as one stable descending
sort followed by `take`). -/
def extractRow (pairs : List (Nat × ℚ)) (topK : Nat) (minSim : ℚ) : List (Nat × ℚ) :=
  if topK < (pairs.filter fun p => minSim ≤ p.2).length then
    (List.insertionSort (byKeyDesc Prod.snd Prod.fst)
      (pairs.filter fun p => minSim ≤ p.2)).take topK
  else
    List.insertionSort (byKeyDesc Prod.snd Prod.fst) (pairs.filter fun p => minSim ≤ p.2)

/-- Mention records contributed by a single posting. -/
def rowMentions (labels : List String) (topK : Nat) (minSim : ℚ)
    (job : String × List ℚ) : List MentionRow :=
  (extractRow (csrRow job.2) topK minSim).map fun p =>
    { researchId := job.1, taxonomySkill := labels.getD p.1 "", nlpScore := p.2 }

/-- `_iter_batches` (`range(0, total, batch)` requires `batch ≥ 1` in Python;
the fuel makes the model total). -/
def iterBatchesAux : Nat → Nat → Nat → Nat → List (Nat × Nat)
  | 0, _, _, _ => []
  | fuel + 1, start, total, batch =>
      if start < total then
        (start, min (start + batch) total) :: iterBatchesAux fuel (start + batch) total batch
      else []

def iterBatches (total batch : Nat) : List (Nat × Nat) :=
  iterBatchesAux total 0 total batch

/-- `extract_skill_mentions_from_text`: batched extraction over all postings.
`jobs` pairs each posting id with its similarity row against `labels`
(the catalog). -/
def extractSkillMentions (jobs : List (String × List ℚ)) (labels : List String)
    (topK : Nat) (minSim : ℚ) (batchSize : Nat) : List MentionRow :=
  if jobs.isEmpty then []
  else if labels.isEmpty then []
  else
    (iterBatches jobs.length batchSize).flatMap fun se =>
      (List.range' se.1 (se.2 - se.1)).flatMap fun i =>
        rowMentions labels topK minSim (jobs.getD i ("", []))

/-- Reference semantics: the same extraction without batching. -/
def extractUnbatched (jobs : List (String × List ℚ)) (labels : List String)
    (topK : Nat) (minSim : ℚ) : List MentionRow :=
  jobs.flatMap (rowMentions labels topK minSim)

/-! ### `build_matching_index` / `find_matching_jobs` -/

structure ProfileRow where
  system_job_id : String
  skill_text : String
deriving DecidableEq, Repr

/-- numpy `argsort` (ascending; ties modelled stably). -/
def argsortAsc (sims : List ℚ) : List Nat :=
  (List.insertionSort (byKeyAsc Prod.snd Prod.fst) sims.enum).map Prod.fst

/-- Python slice `l[-n:]` (note `l[-0:]` is the whole list). -/
def pyTakeLast {α : Type} (n : Nat) (l : List α) : List α :=
  if n = 0 then l else l.drop (l.length - n)

/-- Python `dict(zip(keys, vals))[k]`: the last binding wins. -/
def dictLookupLast (pairs : List (String × ℚ)) (k : String) : Option ℚ :=
  pairs.reverse.lookup k

/-- The id list the query ranks over: the prebuilt index's when one is
passed, otherwise the one `build_matching_index` reads off the profiles. -/
def indexJobIds (profiles : List ProfileRow) (indexIds : Option (List String)) : List String :=
  match indexIds with
  | none => profiles.map (fun p => p.system_job_id)
  | some ids => ids

/-- `similarities.argsort()[-top_n:][::-1]`. -/
def topIndices (sims : List ℚ) (topN : Nat) : List Nat :=
  (pyTakeLast topN (argsortAsc sims)).reverse

/-- `top_ids = [job_ids[index] for index in top_indices]`. -/
def topSelIds (jobIds : List String) (sims : List ℚ) (topN : Nat) : List String :=
  (topIndices sims topN).map fun i => jobIds.getD i ""

/-- `top_scores = [similarities[index] for index in top_indices]`. -/
def topSelScores (sims : List ℚ) (topN : Nat) : List ℚ :=
  (topIndices sims topN).map fun i => sims.getD i 0

/-- `results = jobs_clean[isin(top_ids)]` with
`results["match_score"] = results["system_job_id"].map(score_map)`. -/
def matchResults (jobsClean jobIds : List String) (sims : List ℚ) (topN : Nat) :
    List (String × ℚ) :=
  (jobsClean.filter fun id => (topSelIds jobIds sims topN).contains id).map fun id =>
    (id,
      (dictLookupLast ((topSelIds jobIds sims topN).zip (topSelScores sims topN)) id).getD 0)

/-- `find_matching_jobs` from matching.py.  `jobsClean` is the id column of
the postings table (other columns are carried through unchanged by the
source and irrelevant here); `sims` is the cosine-similarity row of the
user query against the index matrix, an input because the TF-IDF projection
is sklearn code; `indexIds` is the id list of a prebuilt index when one is
passed. -/
def findMatchingJobs (jobsClean : List String) (profiles : List ProfileRow)
    (indexIds : Option (List String)) (sims : List ℚ) (topN : Nat) : List (String × ℚ) :=
  if profiles.isEmpty then []
  else
    ((List.insertionSort (byKeyDesc (fun p : Nat × (String × ℚ) => p.2.2) Prod.fst)
        (matchResults jobsClean (indexJobIds profiles indexIds) sims topN).enum).map
      Prod.snd).take topN

/-! ### `compute_skill_gap` -/

/-- pandas `drop_duplicates(subset=["Taxonomy Skill"])`: keep the first row
for each skill. -/
def dedupBySkill (l : List MentionRow) : List MentionRow :=
  pyDedupBy (fun m => m.taxonomySkill) l

/-- The `ranked` frame of `compute_skill_gap`: this posting's mentions,
sorted by descending score (stably), deduplicated by skill keeping the
first (highest-scoring) row, truncated to `limit`. -/
def rankedSkillRows (jobId : String) (mentions : List MentionRow) (limit : Nat) :
    List MentionRow :=
  (dedupBySkill
    ((List.insertionSort (byKeyDesc (fun p : Nat × MentionRow => p.2.nlpScore) Prod.fst)
      ((mentions.filter fun m => m.researchId = jobId).enum)).map Prod.snd)).take limit

/-- The per-skill classification of `compute_skill_gap`: some
whitespace-token of the lowercased skill with length > 3 occurs as a
substring of the lowercased user text. -/
def tokenMatch (userLower : String) (skill : String) : Bool :=
  ((pySplitWs (pyToLower skill)).filter fun t => 3 < t.length).any fun t =>
    containsSubstr t userLower

/-- `compute_skill_gap` from matching.py (the required columns exist by
construction in this typed model, and the score column is `nlpScore`). -/
def computeSkillGap (userText jobId : String) (mentions : List MentionRow)
    (limit : Nat) : List String × List String :=
  if mentions.isEmpty then ([], [])
  else if (mentions.filter fun m => m.researchId = jobId).isEmpty then ([], [])
  else
    (((rankedSkillRows jobId mentions limit).map fun m => m.taxonomySkill).filter
        (tokenMatch (pyToLower userText)),
      ((rankedSkillRows jobId mentions limit).map fun m => m.taxonomySkill).filter
        fun s => !tokenMatch (pyToLower userText) s)

/-! ### Caching policy of `load_data` (data.py) -/

/-- Python `set(xs) == set(ys)` on id columns. -/
def sameIdSet (l1 l2 : List String) : Bool :=
  (l1.all fun x => l2.contains x) && (l2.all fun x => l1.contains x)

/-- pandas `drop_duplicates(subset=["system_job_id"], keep="first")`. -/
def dedupById (l : List RequirementsRow) : List RequirementsRow :=
  pyDedupBy (fun r => r.system_job_id) l

/-- `_load_cached_requirements_profile`: `none` models a missing cache file;
an empty cached frame is treated as missing; ids are deduplicated. -/
def loadCachedRequirementsProfile (cache : Option (List RequirementsRow)) :
    Option (List RequirementsRow) :=
  match cache with
  | none => none
  | some rows => if rows.isEmpty then none else some (dedupById rows)

/-- The requirements-profile step of `load_data`: the first component is
`true` when the profile was regenerated from `jobs`, `false` when the cache
was reused. -/
def requirementsStage (cache : Option (List RequirementsRow)) (jobs : List PostingRow) :
    Bool × List RequirementsRow :=
  match loadCachedRequirementsProfile cache with
  | none => (true, inferEducationAndExperience jobs)
  | some cached =>
      if sameIdSet (jobs.map fun j => j.system_job_id)
          (cached.map fun r => r.system_job_id) then (false, cached)
      else (true, inferEducationAndExperience jobs)

/-- `_load_cached_nlp_structured_data`: both artifacts must exist and be
non-empty; no posting-id comparison is performed. -/
def loadCachedNlpStructuredData (cm : Option (List MentionRow))
    (cp : Option (List ProfileRow)) : Option (List MentionRow × List ProfileRow) :=
  match cm, cp with
  | some ms, some ps => if ms.isEmpty || ps.isEmpty then none else some (ms, ps)
  | _, _ => none

/-- The mention/profile step of `load_data`: `generated` abstracts the
regeneration pipeline (extraction + aggregation); the first component is
`true` when it was invoked, `false` when the cache was reused. -/
def nlpStage (cm : Option (List MentionRow)) (cp : Option (List ProfileRow))
    (generated : List MentionRow × List ProfileRow) :
    Bool × (List MentionRow × List ProfileRow) :=
  match loadCachedNlpStructuredData cm cp with
  | none => (true, generated)
  | some v => (false, v)

/-! ### Concrete instances used by the worked examples -/

/-- The spec's worked requirements-inference example: empty structured
fields, description "Requires Bachelor's degree and 3-5 years experience". -/
def exampleJobPosting : PostingRow :=
  { system_job_id := "P1"
    title := ""
    description :=
      "Requires Bachelor" ++ apos.toString ++ "s degree and 3-5 years experience"
    requirements_min_education := ""
    requirements_experience := "" }

/-- Modelled from the spec: the skill-gap classification as §4.6 words it —
normalize the skill with the Text Normalizer, take its tokens of length > 3,
and test each as a substring of the *normalized* query text.  Used only to
compare against the code's classification (which lowercases but does not
normalize). -/
def specNormalizedTokenMatch (queryText skill : String) : Bool :=
  ((pySplitWs (normalizeText skill)).filter fun t => 3 < t.length).any fun t =>
    containsSubstr t (normalizeText queryText)

/-- The per-row requirements-inference contract (the amended C1 property):
a non-empty, non-sentinel structured field is used (whitespace-trimmed)
verbatim with source `"dataset"`; otherwise a regex-derived value carries
source `"nlp_inferred"`; absence of both yields `""` with
`"not_specified"`. -/
def ReqRowSpec (row : PostingRow) (out : RequirementsRow) : Prop :=
  (normalizeExistingRequirement row.requirements_min_education ≠ "" →
    out.education_display = normalizeExistingRequirement row.requirements_min_education ∧
    out.education_source = "dataset") ∧
  (normalizeExistingRequirement row.requirements_min_education = "" →
    inferEducationFromText (row.title ++ " " ++ row.description) ≠ "" →
    out.education_display = inferEducationFromText (row.title ++ " " ++ row.description) ∧
    out.education_source = "nlp_inferred") ∧
  (normalizeExistingRequirement row.requirements_min_education = "" →
    inferEducationFromText (row.title ++ " " ++ row.description) = "" →
    out.education_display = "" ∧ out.education_source = "not_specified") ∧
  (normalizeExistingRequirement row.requirements_experience ≠ "" →
    out.experience_display = normalizeExistingRequirement row.requirements_experience ∧
    out.experience_source = "dataset") ∧
  (normalizeExistingRequirement row.requirements_experience = "" →
    inferExperienceFromText (row.title ++ " " ++ row.description) ≠ "" →
    out.experience_display = inferExperienceFromText (row.title ++ " " ++ row.description) ∧
    out.experience_source = "nlp_inferred") ∧
  (normalizeExistingRequirement row.requirements_experience = "" →
    inferExperienceFromText (row.title ++ " " ++ row.description) = "" →
    out.experience_display = "" ∧ out.experience_source = "not_specified") ∧
  (out.education_source = "dataset" ∨ out.education_source = "nlp_inferred" ∨
    out.education_source = "not_specified") ∧
  (out.experience_source = "dataset" ∨ out.experience_source = "nlp_inferred" ∨
    out.experience_source = "not_specified")

/-! ## Lemmas -/

lemma pyDedupByAux_sublist {α : Type} (key : α → String) :
    ∀ (fuel : Nat) (l : List α), (pyDedupByAux key fuel l).Sublist l := by
  intro fuel
  induction fuel with
  | zero =>
      intro l
      cases l <;> simp [pyDedupByAux]
  | succ n ih =>
      intro l
      cases l with
      | nil => simp [pyDedupByAux]
      | cons x rest =>
          rw [pyDedupByAux]
          exact List.Sublist.cons₂ x ((ih _).trans (List.filter_sublist rest))

lemma pyDedupBy_sublist {α : Type} (key : α → String) (l : List α) :
    (pyDedupBy key l).Sublist l :=
  pyDedupByAux_sublist key l.length l

lemma pyDedupByAux_keys_nodup {α : Type} (key : α → String) :
    ∀ (fuel : Nat) (l : List α), ((pyDedupByAux key fuel l).map key).Nodup := by
  intro fuel
  induction fuel with
  | zero =>
      intro l
      cases l <;> simp [pyDedupByAux]
  | succ n ih =>
      intro l
      cases l with
      | nil => simp [pyDedupByAux]
      | cons x rest =>
          rw [pyDedupByAux, List.map_cons, List.nodup_cons]
          constructor
          · intro hmem
            rcases List.mem_map.mp hmem with ⟨y, hy, hkey⟩
            have hy2 : y ∈ rest.filter (fun z => key z ≠ key x) :=
              (pyDedupByAux_sublist key n _).mem hy
            have := (List.mem_filter.mp hy2).2
            simp at this
            exact this hkey
          · exact ih _

lemma pyDedupBy_keys_nodup {α : Type} (key : α → String) (l : List α) :
    ((pyDedupBy key l).map key).Nodup :=
  pyDedupByAux_keys_nodup key l.length l

lemma byKeyDesc_pairwise_key_le {α β : Type} [LinearOrder β] {key : α → β}
    {pos : α → Nat} {l : List α} (h : List.Pairwise (byKeyDesc key pos) l) :
    List.Pairwise (fun a b => key b ≤ key a) l := by
  refine h.imp ?_
  intro a b hab
  rcases hab with hlt | ⟨heq, _⟩
  · exact le_of_lt hlt
  · exact le_of_eq heq.symm

/-- The skills of the `ranked` frame are pairwise distinct. -/
lemma rankedSkillRows_keys_nodup (jobId : String) (mentions : List MentionRow)
    (limit : Nat) :
    ((rankedSkillRows jobId mentions limit).map (fun m => m.taxonomySkill)).Nodup := by
  unfold rankedSkillRows dedupBySkill
  exact List.Nodup.sublist
    (List.Sublist.map _ (List.take_sublist _ _)) (pyDedupBy_keys_nodup _ _)

/-- The `ranked` frame is sorted by weakly descending score. -/
lemma rankedSkillRows_sorted (jobId : String) (mentions : List MentionRow)
    (limit : Nat) :
    List.Pairwise (fun a b : MentionRow => b.nlpScore ≤ a.nlpScore)
      (rankedSkillRows jobId mentions limit) := by
  unfold rankedSkillRows dedupBySkill
  have hsorted :
      List.Pairwise
        (byKeyDesc (fun p : Nat × MentionRow => p.2.nlpScore) Prod.fst)
        (List.insertionSort
          (byKeyDesc (fun p : Nat × MentionRow => p.2.nlpScore) Prod.fst)
          ((mentions.filter fun m => m.researchId = jobId).enum)) :=
    List.sorted_insertionSort _ _
  have hmapped :
      List.Pairwise (fun a b : MentionRow => b.nlpScore ≤ a.nlpScore)
        ((List.insertionSort
          (byKeyDesc (fun p : Nat × MentionRow => p.2.nlpScore) Prod.fst)
          ((mentions.filter fun m => m.researchId = jobId).enum)).map Prod.snd) := by
    refine List.Pairwise.map _ ?_ hsorted
    intro a b hab
    rcases hab with hlt | ⟨heq, _⟩
    · exact le_of_lt hlt
    · exact le_of_eq heq.symm
  exact List.Pairwise.sublist
    ((List.take_sublist _ _).trans (pyDedupBy_sublist _ _)) hmapped

lemma rankedSkillRows_of_no_mentions (jobId : String) (mentions : List MentionRow)
    (limit : Nat) (h : (mentions.filter fun m => m.researchId = jobId) = []) :
    rankedSkillRows jobId mentions limit = [] := by
  simp [rankedSkillRows, dedupBySkill, h, pyDedupBy, pyDedupByAux]

/-! ## Claim theorems -/

/-- C8 (confirmed): for every query text, posting id, mention table and limit,
`compute_skill_gap` returns `(matched, missing)` with
`matched ++ missing` a permutation of the deduplicated top-`limit` skill list
for the posting, `matched` and `missing` disjoint, both preserving the
descending-score order of that list (which is weakly descending by score),
and a posting with no mentions yields two empty lists. -/
theorem skill_gap_partition (userText jobId : String) (mentions : List MentionRow)
    (limit : Nat) :
    ((computeSkillGap userText jobId mentions limit).1 ++
        (computeSkillGap userText jobId mentions limit).2).Perm
      ((rankedSkillRows jobId mentions limit).map fun m => m.taxonomySkill) ∧
    (∀ s : String, ¬(s ∈ (computeSkillGap userText jobId mentions limit).1 ∧
        s ∈ (computeSkillGap userText jobId mentions limit).2)) ∧
    ((computeSkillGap userText jobId mentions limit).1).Sublist
      ((rankedSkillRows jobId mentions limit).map fun m => m.taxonomySkill) ∧
    ((computeSkillGap userText jobId mentions limit).2).Sublist
      ((rankedSkillRows jobId mentions limit).map fun m => m.taxonomySkill) ∧
    List.Pairwise (fun a b : MentionRow => b.nlpScore ≤ a.nlpScore)
      (rankedSkillRows jobId mentions limit) ∧
    ((mentions.filter fun m => m.researchId = jobId) = [] →
      computeSkillGap userText jobId mentions limit = ([], [])) := by
  have hsorted := rankedSkillRows_sorted jobId mentions limit
  by_cases h1 : mentions.isEmpty
  · have hm : mentions = [] := List.isEmpty_iff.mp h1
    subst hm
    refine ⟨?_, ?_, ?_, ?_, hsorted, ?_⟩ <;>
      simp [computeSkillGap, rankedSkillRows, dedupBySkill, pyDedupBy, pyDedupByAux]
  · by_cases h2 : (mentions.filter fun m => m.researchId = jobId).isEmpty
    · have hf : (mentions.filter fun m => m.researchId = jobId) = [] :=
        List.isEmpty_iff.mp h2
      have hr := rankedSkillRows_of_no_mentions jobId mentions limit hf
      have hg : computeSkillGap userText jobId mentions limit = ([], []) := by
        simp [computeSkillGap, h1, h2]
      refine ⟨?_, ?_, ?_, ?_, hsorted, ?_⟩ <;> simp [hg, hr]
    · have hg : computeSkillGap userText jobId mentions limit =
          (((rankedSkillRows jobId mentions limit).map fun m => m.taxonomySkill).filter
              (tokenMatch (pyToLower userText)),
            ((rankedSkillRows jobId mentions limit).map fun m => m.taxonomySkill).filter
              fun s => !tokenMatch (pyToLower userText) s) := by
        simp [computeSkillGap, h1, h2]
      refine ⟨?_, ?_, ?_, ?_, hsorted, ?_⟩
      · rw [hg]
        exact List.filter_append_perm _ _
      · intro s hs
        rw [hg] at hs
        have hp := (List.mem_filter.mp hs.1).2
        have hq := (List.mem_filter.mp hs.2).2
        simp only [Bool.not_eq_eq_eq_not, Bool.not_true] at hq
        rw [hq] at hp
        exact Bool.noConfusion hp
      · rw [hg]
        exact List.filter_sublist _
      · rw [hg]
        exact List.filter_sublist _
      · intro hf
        exact absurd (List.isEmpty_iff.mpr hf) h2

/-- C8 witness: a posting with no mentions in the table yields two empty
lists. -/
theorem skill_gap_partition_witness :
    computeSkillGap "carpentry" "Z9"
        [{ researchId := "J1", taxonomySkill := "excel", nlpScore := 1 }] 5 = ([], []) :=
  (skill_gap_partition "carpentry" "Z9"
    [{ researchId := "J1", taxonomySkill := "excel", nlpScore := 1 }] 5).2.2.2.2.2
    (by decide)

/-- C6 counterexample: the claim classifies a skill as matched when a
length > 3 token of its *normalized* form occurs in the *normalized* query.
For skill "node.js" and query "I know node" that predicate holds (token
"node"), yet `compute_skill_gap` — which only lowercases and whitespace-splits,
leaving "node.js" a single token — puts the skill in the missing list. -/
theorem skill_gap_normalization_counterexample :
    computeSkillGap "I know node" "J1"
        [{ researchId := "J1", taxonomySkill := "node.js", nlpScore := 1 }] 12 =
      ([], ["node.js"]) ∧
    specNormalizedTokenMatch "I know node" "node.js" = true := by
  constructor
  · decide
  · decide

/-- C6 (corrected): a retained skill is classified matched exactly when some
whitespace-token of length > 3 of its *lowercased* (not normalized) form is a
substring of the *lowercased* (not normalized) query text; otherwise it is in
the missing list. -/
theorem skill_gap_token_match_characterization (userText jobId : String)
    (mentions : List MentionRow) (limit : Nat) (s : String) :
    (s ∈ (computeSkillGap userText jobId mentions limit).1 ↔
      s ∈ ((rankedSkillRows jobId mentions limit).map fun m => m.taxonomySkill) ∧
        tokenMatch (pyToLower userText) s = true) ∧
    (s ∈ (computeSkillGap userText jobId mentions limit).2 ↔
      s ∈ ((rankedSkillRows jobId mentions limit).map fun m => m.taxonomySkill) ∧
        tokenMatch (pyToLower userText) s = false) := by
  by_cases h1 : mentions.isEmpty
  · have hm : mentions = [] := List.isEmpty_iff.mp h1
    subst hm
    constructor <;> simp [computeSkillGap, rankedSkillRows, dedupBySkill, pyDedupBy, pyDedupByAux]
  · by_cases h2 : (mentions.filter fun m => m.researchId = jobId).isEmpty
    · have hf : (mentions.filter fun m => m.researchId = jobId) = [] :=
        List.isEmpty_iff.mp h2
      have hr := rankedSkillRows_of_no_mentions jobId mentions limit hf
      constructor <;> simp [computeSkillGap, h1, h2, hr]
    · have hg : computeSkillGap userText jobId mentions limit =
          (((rankedSkillRows jobId mentions limit).map fun m => m.taxonomySkill).filter
              (tokenMatch (pyToLower userText)),
            ((rankedSkillRows jobId mentions limit).map fun m => m.taxonomySkill).filter
              fun s => !tokenMatch (pyToLower userText) s) := by
        simp [computeSkillGap, h1, h2]
      rw [hg]
      constructor
      · simp [List.mem_filter]
      · simp [List.mem_filter]

/-- C4 (confirmed): with an empty skill-profile collection the query engine
returns the empty (correctly-typed) result, whatever the posting table, the
prebuilt index, the similarity row and `top_n` are — in particular the
empty-profile guard fires before the index is ever consulted, so a query
over zero profiles cannot fail. -/
theorem query_empty_profiles_returns_empty (jobsClean : List String)
    (indexIds : Option (List String)) (sims : List ℚ) (topN : Nat) :
    findMatchingJobs jobsClean [] indexIds sims topN = [] := by
  simp [findMatchingJobs]

/-- C2 counterexample: `load_data` reuses the cached skill-mention /
skill-profile artifacts (regeneration flag `false`) although the cached
posting-id set {"A"} differs from the current posting-id set {"B"} — the
claim permits reuse only when the two sets are equal. -/
theorem nlp_cache_reused_despite_id_mismatch :
    (nlpStage (some [{ researchId := "A", taxonomySkill := "excel", nlpScore := 1 }])
        (some [{ system_job_id := "A", skill_text := "excel" }]) ([], [])).1 = false ∧
    sameIdSet
        (([{ system_job_id := "B", title := "", description := "",
             requirements_min_education := "", requirements_experience := "" }] :
            List PostingRow).map fun j => j.system_job_id)
        (([{ researchId := "A", taxonomySkill := "excel", nlpScore := 1 }] :
            List MentionRow).map fun m => m.researchId) = false := by
  constructor
  · rfl
  · decide

lemma requirementsStage_eq (cache : Option (List RequirementsRow))
    (jobs : List PostingRow) :
    requirementsStage cache jobs =
      match cache with
      | none => (true, inferEducationAndExperience jobs)
      | some rows =>
          if rows.isEmpty then (true, inferEducationAndExperience jobs)
          else if sameIdSet (jobs.map fun j => j.system_job_id)
              ((dedupById rows).map fun r => r.system_job_id) then (false, dedupById rows)
          else (true, inferEducationAndExperience jobs) := by
  cases cache with
  | none => rfl
  | some rows =>
      by_cases he : rows.isEmpty
      · simp [requirementsStage, loadCachedRequirementsProfile, he]
      · by_cases hs : sameIdSet (jobs.map fun j => j.system_job_id)
            ((dedupById rows).map fun r => r.system_job_id) <;>
          simp [requirementsStage, loadCachedRequirementsProfile, he, hs]

/-- C2 (corrected): only the requirements-profile cache is gated on
posting-id set equality — it is reused exactly when it exists, is non-empty
and its (deduplicated) id set equals the current posting-id set, and is
otherwise fully regenerated; the skill-mention / skill-profile caches are
reused exactly when both exist and are non-empty, with no posting-id
comparison at all, and are fully regenerated otherwise. -/
theorem cache_validation_policy :
    (∀ (cache : Option (List RequirementsRow)) (jobs : List PostingRow),
      ((requirementsStage cache jobs).1 = false ↔
        ∃ rows, cache = some rows ∧ rows ≠ [] ∧
          sameIdSet (jobs.map fun j => j.system_job_id)
            ((dedupById rows).map fun r => r.system_job_id) = true) ∧
      ((requirementsStage cache jobs).1 = true →
        (requirementsStage cache jobs).2 = inferEducationAndExperience jobs) ∧
      (∀ rows, cache = some rows → (requirementsStage cache jobs).1 = false →
        (requirementsStage cache jobs).2 = dedupById rows)) ∧
    (∀ (cm : Option (List MentionRow)) (cp : Option (List ProfileRow))
        (generated : List MentionRow × List ProfileRow),
      ((nlpStage cm cp generated).1 = false ↔
        ∃ ms ps, cm = some ms ∧ cp = some ps ∧ ms ≠ [] ∧ ps ≠ []) ∧
      ((nlpStage cm cp generated).1 = false →
        (nlpStage cm cp generated).2 = (cm.getD [], cp.getD [])) ∧
      ((nlpStage cm cp generated).1 = true →
        (nlpStage cm cp generated).2 = generated)) := by
  constructor
  · intro cache jobs
    rw [requirementsStage_eq]
    cases cache with
    | none => simp
    | some rows =>
        by_cases he : rows.isEmpty
        · have hnil : rows = [] := List.isEmpty_iff.mp he
          subst hnil
          simp
        · have hne : rows ≠ [] := fun h => he (List.isEmpty_iff.mpr h)
          by_cases hs : sameIdSet (jobs.map fun j => j.system_job_id)
              ((dedupById rows).map fun r => r.system_job_id)
          · simp [he, hs, hne]
          · simp [he, hs]
  · intro cm cp generated
    cases cm with
    | none => simp [nlpStage, loadCachedNlpStructuredData]
    | some ms =>
        cases cp with
        | none => simp [nlpStage, loadCachedNlpStructuredData]
        | some ps =>
            by_cases hm : ms.isEmpty
            · have : ms = [] := List.isEmpty_iff.mp hm
              subst this
              simp [nlpStage, loadCachedNlpStructuredData]
            · by_cases hp : ps.isEmpty
              · have : ps = [] := List.isEmpty_iff.mp hp
                subst this
                simp [nlpStage, loadCachedNlpStructuredData]
              · have hm2 : ms ≠ [] := fun h => hm (List.isEmpty_iff.mpr h)
                have hp2 : ps ≠ [] := fun h => hp (List.isEmpty_iff.mpr h)
                simp [nlpStage, loadCachedNlpStructuredData, hm, hp, hm2, hp2]

/-- C2 witness: a missing requirements cache is regenerated from the current
postings, and a present non-empty mention/profile cache is reused as-is. -/
theorem cache_validation_policy_witness :
    (requirementsStage none
        [{ system_job_id := "B", title := "", description := "",
           requirements_min_education := "", requirements_experience := "" }]).2 =
      inferEducationAndExperience
        [{ system_job_id := "B", title := "", description := "",
           requirements_min_education := "", requirements_experience := "" }] ∧
    (nlpStage (some [{ researchId := "A", taxonomySkill := "excel", nlpScore := 1 }])
        (some [{ system_job_id := "A", skill_text := "excel" }]) ([], [])).2 =
      ([{ researchId := "A", taxonomySkill := "excel", nlpScore := 1 }],
        [{ system_job_id := "A", skill_text := "excel" }]) :=
  ⟨(cache_validation_policy.1 none _).2.1 rfl,
    (cache_validation_policy.2 _ _ _).2.1 rfl⟩

lemma extractRow_mem {pairs : List (Nat × ℚ)} {topK : Nat} {minSim : ℚ}
    {p : Nat × ℚ} (hp : p ∈ extractRow pairs topK minSim) :
    p ∈ pairs.filter (fun q => minSim ≤ q.2) := by
  unfold extractRow at hp
  by_cases h : topK < (pairs.filter fun q => minSim ≤ q.2).length
  · rw [if_pos h] at hp
    exact (List.perm_insertionSort _ _).mem_iff.mp ((List.take_sublist _ _).mem hp)
  · rw [if_neg h] at hp
    exact (List.perm_insertionSort _ _).mem_iff.mp hp

lemma extractRow_length_le (pairs : List (Nat × ℚ)) (topK : Nat) (minSim : ℚ) :
    (extractRow pairs topK minSim).length ≤ topK := by
  unfold extractRow
  by_cases h : topK < (pairs.filter fun q => minSim ≤ q.2).length
  · rw [if_pos h]
    simp [List.length_take]
  · rw [if_neg h]
    rw [(List.perm_insertionSort _ _).length_eq]
    omega

lemma extractRow_sorted (pairs : List (Nat × ℚ)) (topK : Nat) (minSim : ℚ) :
    List.Pairwise (fun a b : Nat × ℚ => b.2 ≤ a.2) (extractRow pairs topK minSim) := by
  have hsorted :
      List.Pairwise (fun a b : Nat × ℚ => b.2 ≤ a.2)
        (List.insertionSort (byKeyDesc Prod.snd Prod.fst)
          (pairs.filter fun q => minSim ≤ q.2)) := by
    refine (List.sorted_insertionSort _ _).imp ?_
    intro a b hab
    rcases hab with hlt | ⟨heq, _⟩
    · exact le_of_lt hlt
    · exact le_of_eq heq.symm
  unfold extractRow
  by_cases h : topK < (pairs.filter fun q => minSim ≤ q.2).length
  · rw [if_pos h]
    exact List.Pairwise.sublist (List.take_sublist _ _) hsorted
  · rw [if_neg h]
    exact hsorted

lemma rowMentions_researchId {labels : List String} {topK : Nat} {minSim : ℚ}
    {job : String × List ℚ} {m : MentionRow}
    (hm : m ∈ rowMentions labels topK minSim job) : m.researchId = job.1 := by
  rcases List.mem_map.mp hm with ⟨p, _, rfl⟩
  rfl

lemma rowMentions_score_ge {labels : List String} {topK : Nat} {minSim : ℚ}
    {job : String × List ℚ} {m : MentionRow}
    (hm : m ∈ rowMentions labels topK minSim job) : minSim ≤ m.nlpScore := by
  rcases List.mem_map.mp hm with ⟨p, hp, rfl⟩
  exact of_decide_eq_true (List.mem_filter.mp (extractRow_mem hp)).2

lemma rowMentions_length_le (labels : List String) (topK : Nat) (minSim : ℚ)
    (job : String × List ℚ) :
    (rowMentions labels topK minSim job).length ≤ topK := by
  unfold rowMentions
  rw [List.length_map]
  exact extractRow_length_le _ _ _

lemma rowMentions_sorted (labels : List String) (topK : Nat) (minSim : ℚ)
    (job : String × List ℚ) :
    List.Pairwise (fun a b : MentionRow => b.nlpScore ≤ a.nlpScore)
      (rowMentions labels topK minSim job) := by
  unfold rowMentions
  exact List.Pairwise.map _ (fun a b h => h) (extractRow_sorted (csrRow job.2) topK minSim)

lemma iterBatchesAux_empty_of_ge {batch total start : Nat} (h : total ≤ start) :
    ∀ fuel, iterBatchesAux fuel start total batch = [] := by
  intro fuel
  cases fuel with
  | zero => rfl
  | succ n => simp [iterBatchesAux, Nat.not_lt.mpr h]

lemma iterBatchesAux_ranges {batch : Nat} (hb : 1 ≤ batch) :
    ∀ (fuel start total : Nat), total - start ≤ fuel →
      (iterBatchesAux fuel start total batch).flatMap
          (fun se => List.range' se.1 (se.2 - se.1)) =
        List.range' start (total - start) := by
  intro fuel
  induction fuel with
  | zero =>
      intro start total h
      have h0 : total - start = 0 := Nat.le_zero.mp h
      simp [iterBatchesAux, h0]
  | succ n ih =>
      intro start total h
      by_cases hlt : start < total
      · rw [iterBatchesAux, if_pos hlt, List.flatMap_cons]
        by_cases hc : start + batch ≤ total
        · have hmin : min (start + batch) total = start + batch := Nat.min_eq_left hc
          rw [hmin, ih (start + batch) total (by omega)]
          have harith : start + batch - start = batch := by omega
          rw [harith]
          calc
            List.range' start batch ++
                List.range' (start + batch) (total - (start + batch))
              = List.range' start ((total - (start + batch)) + batch) := by
                have hra := List.range'_append start batch (total - (start + batch)) 1
                rw [one_mul] at hra
                exact hra
            _ = List.range' start (total - start) := by
                rw [show total - (start + batch) + batch = total - start by omega]
        · have hmin : min (start + batch) total = total := by omega
          rw [hmin, iterBatchesAux_empty_of_ge (by omega) n]
          simp
      · have h0 : total - start = 0 := by omega
        rw [iterBatchesAux, if_neg hlt]
        simp [h0]

lemma range_flatMap_getD {α β : Type} (d : α) (f : α → List β) :
    ∀ l : List α, (List.range l.length).flatMap (fun i => f (l.getD i d)) = l.flatMap f := by
  intro l
  induction l with
  | nil => rfl
  | cons a rest ih =>
      rw [List.length_cons, List.range_succ_eq_map, List.flatMap_cons, List.flatMap_map,
        List.flatMap_cons]
      simp only [List.getD_cons_zero, List.getD_cons_succ]
      rw [ih]

lemma extract_eq_unbatched (jobs : List (String × List ℚ)) (labels : List String)
    (topK : Nat) (minSim : ℚ) (batchSize : Nat) (hb : 1 ≤ batchSize)
    (hj : ¬ jobs.isEmpty = true) (hl : ¬ labels.isEmpty = true) :
    extractSkillMentions jobs labels topK minSim batchSize =
      extractUnbatched jobs labels topK minSim := by
  unfold extractSkillMentions iterBatches
  rw [if_neg hj, if_neg hl, ← List.flatMap_assoc,
    iterBatchesAux_ranges hb jobs.length 0 jobs.length (by omega),
    Nat.sub_zero, ← List.range_eq_range']
  exact range_flatMap_getD ("", []) (rowMentions labels topK minSim) jobs

lemma extractUnbatched_filter (jobs : List (String × List ℚ)) (labels : List String)
    (topK : Nat) (minSim : ℚ) (id : String) :
    ((extractUnbatched jobs labels topK minSim).filter fun m => m.researchId = id) =
      (jobs.filter fun j => j.1 = id).flatMap (rowMentions labels topK minSim) := by
  unfold extractUnbatched
  induction jobs with
  | nil => rfl
  | cons job rest ih =>
      rw [List.flatMap_cons, List.filter_append, ih, List.filter_cons]
      by_cases h : job.1 = id
      · have hkeep : (rowMentions labels topK minSim job).filter
            (fun m => m.researchId = id) = rowMentions labels topK minSim job :=
          List.filter_eq_self.mpr fun m hm => by
            simp [rowMentions_researchId hm, h]
        simp [h, hkeep]
      · have hdrop : (rowMentions labels topK minSim job).filter
            (fun m => m.researchId = id) = [] :=
          List.filter_eq_nil_iff.mpr fun m hm => by
            simp [rowMentions_researchId hm, h]
        simp [h, hdrop]

lemma filter_fst_length_le_one {jobs : List (String × List ℚ)}
    (hnd : (jobs.map Prod.fst).Nodup) (id : String) :
    (jobs.filter fun j => j.1 = id).length ≤ 1 := by
  induction jobs with
  | nil => simp
  | cons job rest ih =>
      rw [List.map_cons, List.nodup_cons] at hnd
      rw [List.filter_cons]
      by_cases h : job.1 = id
      · have hrest : rest.filter (fun j => j.1 = id) = [] := by
          refine List.filter_eq_nil_iff.mpr ?_
          intro j hj hid
          simp only [decide_eq_true_eq] at hid
          exact hnd.1 (List.mem_map.mpr ⟨j, hj, by rw [hid, h]⟩)
        simp [h, hrest]
      · simpa [h] using ih hnd.2

/-- C3 counterexample: with two catalog skills whose similarity to the
posting ties, the extractor emits the posting's mentions in (weakly)
descending order with two equal scores in a row, so the per-posting mention
list is not *strictly* descending. -/
theorem mention_sort_not_strictly_descending :
    ¬ List.Pairwise (fun a b : MentionRow => b.nlpScore < a.nlpScore)
      ((extractSkillMentions [("J1", [1, 1])] ["alpha", "beta"] 15 0 256).filter
        fun m => m.researchId = "J1") := by
  decide

/-- C3 (corrected): every emitted mention has similarity ≥ `min_similarity`;
each posting (ids assumed distinct, as they are in `jobs_clean`) has at most
`top_k` mentions; and within each posting the mentions are sorted
*weakly* descending by similarity — equal similarities may tie, so the order
is descending but not strictly so. -/
theorem mention_extractor_bounds (jobs : List (String × List ℚ)) (labels : List String)
    (topK : Nat) (minSim : ℚ) (batchSize : Nat) (hb : 1 ≤ batchSize)
    (hnd : (jobs.map Prod.fst).Nodup) :
    (∀ m ∈ extractSkillMentions jobs labels topK minSim batchSize,
      minSim ≤ m.nlpScore) ∧
    (∀ id : String,
      ((extractSkillMentions jobs labels topK minSim batchSize).filter
          fun m => m.researchId = id).length ≤ topK) ∧
    (∀ id : String,
      List.Pairwise (fun a b : MentionRow => b.nlpScore ≤ a.nlpScore)
        ((extractSkillMentions jobs labels topK minSim batchSize).filter
          fun m => m.researchId = id)) := by
  by_cases hj : jobs.isEmpty
  · simp [extractSkillMentions, hj]
  · by_cases hl : labels.isEmpty
    · simp [extractSkillMentions, hj, hl]
    · rw [extract_eq_unbatched jobs labels topK minSim batchSize hb hj hl]
      refine ⟨?_, ?_, ?_⟩
      · intro m hm
        rcases List.mem_flatMap.mp hm with ⟨job, _, hmj⟩
        exact rowMentions_score_ge hmj
      · intro id
        rw [extractUnbatched_filter]
        have hle := filter_fst_length_le_one hnd id
        rcases hfl : jobs.filter (fun j => j.1 = id) with _ | ⟨job, rest⟩
        · rw [hfl]
          simp
        · rw [hfl, List.length_cons] at hle
          have hrest : rest = [] := List.length_eq_zero.mp (by omega)
          subst hrest
          rw [hfl]
          simpa using rowMentions_length_le labels topK minSim job
      · intro id
        rw [extractUnbatched_filter]
        have hle := filter_fst_length_le_one hnd id
        rcases hfl : jobs.filter (fun j => j.1 = id) with _ | ⟨job, rest⟩
        · rw [hfl]
          simp
        · rw [hfl, List.length_cons] at hle
          have hrest : rest = [] := List.length_eq_zero.mp (by omega)
          subst hrest
          rw [hfl]
          simpa using rowMentions_sorted labels topK minSim job

/-- C3 witness: a concrete two-posting run in which the "J1" posting keeps at
most `top_k = 2` mentions. -/
theorem mention_extractor_bounds_witness :
    ((extractSkillMentions [("J1", [1]), ("J2", [1])] ["alpha"] 2 0 1).filter
        fun m => m.researchId = "J1").length ≤ 2 :=
  (mention_extractor_bounds [("J1", [1]), ("J2", [1])] ["alpha"] 2 0 1 (by decide)
    (by decide)).2.1 "J1"

/-- C7 (confirmed): the mention rows produced by the extractor are identical
— same rows, same order, same scores — for every two batch sizes ≥ 1. -/
theorem extract_mentions_batch_invariant (jobs : List (String × List ℚ))
    (labels : List String) (topK : Nat) (minSim : ℚ) (b1 b2 : Nat)
    (h1 : 1 ≤ b1) (h2 : 1 ≤ b2) :
    extractSkillMentions jobs labels topK minSim b1 =
      extractSkillMentions jobs labels topK minSim b2 := by
  by_cases hj : jobs.isEmpty
  · simp [extractSkillMentions, hj]
  · by_cases hl : labels.isEmpty
    · simp [extractSkillMentions, hj, hl]
    · rw [extract_eq_unbatched jobs labels topK minSim b1 h1 hj hl,
        extract_eq_unbatched jobs labels topK minSim b2 h2 hj hl]

/-- C7 witness: batch sizes 1 and 3 give identical mention rows on a
concrete two-posting collection. -/
theorem extract_mentions_batch_invariant_witness :
    extractSkillMentions [("J1", [1, 1]), ("J2", [0, 1])] ["alpha", "beta"] 15 0 1 =
      extractSkillMentions [("J1", [1, 1]), ("J2", [0, 1])] ["alpha", "beta"] 15 0 3 :=
  extract_mentions_batch_invariant [("J1", [1, 1]), ("J2", [0, 1])] ["alpha", "beta"]
    15 0 1 3 (by decide) (by decide)

lemma catalogCounts_count {labels : List String} {e : String × Nat × Nat}
    (he : e ∈ catalogCounts labels) : e.2.1 = (normalizedSkills labels).count e.1 := by
  rcases List.mem_map.mp he with ⟨p, _, rfl⟩
  rfl

lemma catalogCounts_len {labels : List String} {e : String × Nat × Nat}
    (he : e ∈ catalogCounts labels) : 2 < e.1.length := by
  rcases List.mem_map.mp he with ⟨p, hp, rfl⟩
  have hmem : p.2 ∈ pyDedupBy id (normalizedSkills labels) := by
    have := List.enum_map_snd (pyDedupBy id (normalizedSkills labels))
    rw [← this]
    exact List.mem_map.mpr ⟨p, hp, rfl⟩
  have hmem2 : p.2 ∈ normalizedSkills labels := (pyDedupBy_sublist id _).mem hmem
  have := (List.mem_filter.mp hmem2).2
  simpa using this

lemma catalogCounts_keys (labels : List String) :
    (catalogCounts labels).map (fun e => e.1) = pyDedupBy id (normalizedSkills labels) := by
  unfold catalogCounts
  rw [List.map_map]
  exact List.enum_map_snd _

lemma catalogCounts_keys_nodup (labels : List String) :
    ((catalogCounts labels).map (fun e => e.1)).Nodup := by
  rw [catalogCounts_keys]
  have := pyDedupBy_keys_nodup id (normalizedSkills labels)
  rwa [List.map_id] at this

lemma catalogCounts_pos_nodup (labels : List String) :
    ((catalogCounts labels).map (fun e => e.2.2)).Nodup := by
  unfold catalogCounts
  rw [List.map_map]
  have : ((pyDedupBy id (normalizedSkills labels)).enum.map
      ((fun e : String × Nat × Nat => e.2.2) ∘
        (fun p : Nat × String => (p.2, (normalizedSkills labels).count p.2, p.1)))) =
      (pyDedupBy id (normalizedSkills labels)).enum.map Prod.fst := rfl
  rw [this, List.enum_map_fst]
  exact List.nodup_range _

lemma catalog_mem_entry {labels : List String} {minFreq maxSkills : Nat} {s : String}
    (hs : s ∈ buildSkillCatalog labels minFreq maxSkills) :
    ∃ e : String × Nat × Nat, e ∈ catalogCounts labels ∧ e.1 = s ∧ minFreq ≤ e.2.1 := by
  unfold buildSkillCatalog at hs
  rcases List.mem_map.mp hs with ⟨e, he, rfl⟩
  have h1 := (List.take_sublist _ _).mem he
  have h2 := List.mem_filter.mp h1
  exact ⟨e, (List.perm_insertionSort _ _).mem_iff.mp h2.1, rfl,
    of_decide_eq_true h2.2⟩

/-- C9 (confirmed): every catalog entry has pre-filter occurrence count ≥
`min_frequency` and normalized length > 2; the catalog has at most
`max_skills` entries; and the most frequent eligible labels are the ones
retained, ties broken by first-encounter order (an eligible entry left out
is either strictly less frequent than any retained entry, or equally
frequent and encountered later). -/
theorem catalog_builder_bounds (labels : List String) (minFreq maxSkills : Nat) :
    (∀ s ∈ buildSkillCatalog labels minFreq maxSkills,
      minFreq ≤ (normalizedSkills labels).count s ∧ 2 < s.length) ∧
    (buildSkillCatalog labels minFreq maxSkills).length ≤ maxSkills ∧
    (∀ e1 ∈ catalogCounts labels, e1.1 ∈ buildSkillCatalog labels minFreq maxSkills →
      ∀ e2 ∈ catalogCounts labels, minFreq ≤ e2.2.1 →
        e2.1 ∉ buildSkillCatalog labels minFreq maxSkills →
          e2.2.1 < e1.2.1 ∨ (e2.2.1 = e1.2.1 ∧ e1.2.2 < e2.2.2)) := by
  refine ⟨?_, ?_, ?_⟩
  · intro s hs
    rcases catalog_mem_entry hs with ⟨e, he, rfl, hfreq⟩
    exact ⟨(catalogCounts_count he) ▸ hfreq, catalogCounts_len he⟩
  · unfold buildSkillCatalog
    rw [List.length_map]
    exact List.length_take_le _ _
  · intro e1 he1 hc1 e2 he2 hf2 hc2
    have hsorted : List.Pairwise
        (byKeyDesc (fun t : String × Nat × Nat => t.2.1) (fun t => t.2.2))
        ((List.insertionSort
          (byKeyDesc (fun t : String × Nat × Nat => t.2.1) (fun t => t.2.2))
          (catalogCounts labels)).filter fun t => minFreq ≤ t.2.1) :=
      List.Pairwise.sublist (List.filter_sublist _) (List.sorted_insertionSort _ _)
    set kept := (List.insertionSort
        (byKeyDesc (fun t : String × Nat × Nat => t.2.1) (fun t => t.2.2))
        (catalogCounts labels)).filter (fun t => minFreq ≤ t.2.1) with hkept
    -- e1 itself sits in the retained prefix
    rcases List.mem_map.mp hc1 with ⟨e1x, he1x, hkey1⟩
    have he1x2 : e1x ∈ catalogCounts labels :=
      (List.perm_insertionSort _ _).mem_iff.mp
        (List.mem_filter.mp ((List.take_sublist _ _).mem he1x)).1
    have he1eq : e1x = e1 :=
      List.inj_on_of_nodup_map (catalogCounts_keys_nodup labels) he1x2 he1 hkey1
    have he1take : e1 ∈ kept.take maxSkills := he1eq ▸ he1x
    -- e2 is in kept but not in the retained prefix, hence in the dropped suffix
    have he2kept : e2 ∈ kept := by
      rw [hkept]
      exact List.mem_filter.mpr
        ⟨(List.perm_insertionSort _ _).mem_iff.mpr he2, decide_eq_true hf2⟩
    have he2take : e2 ∉ kept.take maxSkills := by
      intro hmem
      exact hc2 (List.mem_map.mpr ⟨e2, hmem, rfl⟩)
    have he2drop : e2 ∈ kept.drop maxSkills := by
      have := (List.take_append_drop maxSkills kept) ▸ he2kept
      rcases List.mem_append.mp this with h | h
      · exact absurd h he2take
      · exact h
    -- the sorted-append structure gives the comparator between prefix and suffix
    have hpw := hsorted
    rw [← List.take_append_drop maxSkills kept] at hpw
    have hrel := (List.pairwise_append.mp hpw).2.2 e1 he1take e2 he2drop
    rcases hrel with hlt | ⟨heq, hle⟩
    · exact Or.inl hlt
    · have hne : e1 ≠ e2 := by
        intro h
        rw [h] at he1take
        exact he2take he1take
      have hposne : e1.2.2 ≠ e2.2.2 := by
        intro h
        exact hne (List.inj_on_of_nodup_map (catalogCounts_pos_nodup labels) he1 he2 h)
      exact Or.inr ⟨heq.symm, lt_of_le_of_ne hle hposne⟩

/-- C9 witness: on a concrete feed with `min_frequency = 2`, `max_skills = 1`,
the retained skill's pre-filter count is ≥ 2 and its normalized length
exceeds 2. -/
theorem catalog_builder_bounds_witness :
    2 ≤ (normalizedSkills ["Excel!", "excel", "java", "java", "ms"]).count "excel" ∧
      2 < "excel".length :=
  (catalog_builder_bounds ["Excel!", "excel", "java", "java", "ms"] 2 1).1 "excel"
    (by decide)

lemma argsortAsc_perm (sims : List ℚ) :
    (argsortAsc sims).Perm (List.range sims.length) := by
  unfold argsortAsc
  have h2 := (List.perm_insertionSort
    (byKeyAsc (Prod.snd : Nat × ℚ → ℚ) Prod.fst) sims.enum).map Prod.fst
  rwa [List.enum_map_fst] at h2

lemma argsortAsc_nodup (sims : List ℚ) : (argsortAsc sims).Nodup :=
  ((argsortAsc_perm sims).nodup_iff).mpr (List.nodup_range _)

lemma argsortAsc_length (sims : List ℚ) : (argsortAsc sims).length = sims.length := by
  rw [(argsortAsc_perm sims).length_eq, List.length_range]

lemma argsortAsc_mem {sims : List ℚ} {i : Nat} :
    i ∈ argsortAsc sims ↔ i < sims.length := by
  rw [(argsortAsc_perm sims).mem_iff, List.mem_range]

lemma argsortAsc_sorted (sims : List ℚ) :
    List.Pairwise (byKeyAsc (fun i => sims.getD i 0) (fun i => i)) (argsortAsc sims) := by
  unfold argsortAsc
  have hsorted := List.sorted_insertionSort
    (byKeyAsc (Prod.snd : Nat × ℚ → ℚ) Prod.fst) sims.enum
  have hval : ∀ p : Nat × ℚ,
      p ∈ List.insertionSort (byKeyAsc (Prod.snd : Nat × ℚ → ℚ) Prod.fst) sims.enum →
        p.2 = sims.getD p.1 0 := by
    rintro ⟨i, x⟩ hp
    have hpe : (i, x) ∈ sims.enum := (List.perm_insertionSort _ _).mem_iff.mp hp
    obtain ⟨hlt, hx⟩ := List.mem_enum hpe
    rw [List.getD_eq_getElem _ _ hlt]
    exact hx
  have himp :
      List.Pairwise
        (fun p q : Nat × ℚ => byKeyAsc (fun i => sims.getD i 0) (fun i => i) p.1 q.1)
        (List.insertionSort (byKeyAsc (Prod.snd : Nat × ℚ → ℚ) Prod.fst) sims.enum) := by
    refine List.Pairwise.imp_of_mem ?_ hsorted
    intro a b ha hb hab
    have hva := hval a ha
    have hvb := hval b hb
    rcases hab with hlt | ⟨heq, hle⟩
    · refine Or.inl ?_
      show sims.getD a.1 0 < sims.getD b.1 0
      rw [← hva, ← hvb]
      exact hlt
    · refine Or.inr ⟨?_, hle⟩
      show sims.getD a.1 0 = sims.getD b.1 0
      rw [← hva, ← hvb]
      exact heq
  exact List.Pairwise.map _ (fun a b h => h) himp

lemma topIndices_eq (sims : List ℚ) {topN : Nat} (h : topN ≠ 0) :
    topIndices sims topN =
      ((argsortAsc sims).drop ((argsortAsc sims).length - topN)).reverse := by
  unfold topIndices pyTakeLast
  rw [if_neg h]

lemma topIndices_subset {sims : List ℚ} {topN i : Nat}
    (hi : i ∈ topIndices sims topN) : i ∈ argsortAsc sims := by
  unfold topIndices pyTakeLast at hi
  by_cases h : topN = 0
  · rw [if_pos h] at hi
    exact List.mem_reverse.mp hi
  · rw [if_neg h] at hi
    exact (List.drop_sublist _ _).mem (List.mem_reverse.mp hi)

lemma topIndices_mem_lt {sims : List ℚ} {topN i : Nat}
    (hi : i ∈ topIndices sims topN) : i < sims.length :=
  argsortAsc_mem.mp (topIndices_subset hi)

lemma topIndices_nodup (sims : List ℚ) (topN : Nat) : (topIndices sims topN).Nodup := by
  unfold topIndices pyTakeLast
  by_cases h : topN = 0
  · rw [if_pos h]
    exact List.nodup_reverse.mpr (argsortAsc_nodup sims)
  · rw [if_neg h]
    exact List.nodup_reverse.mpr
      (List.Nodup.sublist (List.drop_sublist _ _) (argsortAsc_nodup sims))

lemma topIndices_length {sims : List ℚ} {topN : Nat} (h : 1 ≤ topN) :
    (topIndices sims topN).length = min topN sims.length := by
  rw [topIndices_eq sims (by omega), List.length_reverse, List.length_drop,
    argsortAsc_length]
  omega

/-- Selection optimality of `argsort()[-top_n:][::-1]`: a non-selected index
scores strictly below every selected one, or ties with a strictly smaller
index (the slice keeps the *later* of two tied indices). -/
lemma topIndices_optimal {sims : List ℚ} {topN : Nat} :
    ∀ i ∈ topIndices sims topN, ∀ j : Nat, j < sims.length →
      j ∉ topIndices sims topN →
        sims.getD j 0 < sims.getD i 0 ∨
          (sims.getD j 0 = sims.getD i 0 ∧ j < i) := by
  intro i hi j hj hjn
  by_cases h0 : topN = 0
  · exfalso
    apply hjn
    unfold topIndices pyTakeLast
    rw [if_pos h0]
    exact List.mem_reverse.mpr (argsortAsc_mem.mpr hj)
  · rw [topIndices_eq sims h0] at hi hjn
    have hid : i ∈ (argsortAsc sims).drop ((argsortAsc sims).length - topN) :=
      List.mem_reverse.mp hi
    have hjt : j ∈ (argsortAsc sims).take ((argsortAsc sims).length - topN) := by
      have hjo : j ∈ argsortAsc sims := argsortAsc_mem.mpr hj
      rw [← List.take_append_drop ((argsortAsc sims).length - topN)
        (argsortAsc sims)] at hjo
      rcases List.mem_append.mp hjo with h | h
      · exact h
      · exact absurd (List.mem_reverse.mpr h) hjn
    have hpw := argsortAsc_sorted sims
    rw [← List.take_append_drop ((argsortAsc sims).length - topN)
      (argsortAsc sims)] at hpw
    have hrel := (List.pairwise_append.mp hpw).2.2 j hjt i hid
    rcases hrel with h | ⟨heq, hle⟩
    · exact Or.inl h
    · have hnd := argsortAsc_nodup sims
      rw [← List.take_append_drop ((argsortAsc sims).length - topN)
        (argsortAsc sims)] at hnd
      have hdisj := List.disjoint_of_nodup_append hnd
      have hne : j ≠ i := fun he => hdisj hjt (he ▸ hid)
      exact Or.inr ⟨heq, lt_of_le_of_ne hle hne⟩

lemma topSelIds_nodup {jobIds : List String} {sims : List ℚ} {topN : Nat}
    (hnodI : jobIds.Nodup) (hlen : sims.length = jobIds.length) :
    (topSelIds jobIds sims topN).Nodup := by
  unfold topSelIds
  refine List.Nodup.map_on ?_ (topIndices_nodup sims topN)
  intro x hx y hy hxy
  have hxl : x < jobIds.length := hlen ▸ topIndices_mem_lt hx
  have hyl : y < jobIds.length := hlen ▸ topIndices_mem_lt hy
  rw [List.getD_eq_getElem _ _ hxl, List.getD_eq_getElem _ _ hyl] at hxy
  exact (hnodI.getElem_inj_iff).mp hxy

lemma topSelIds_mem_jobIds {jobIds : List String} {sims : List ℚ} {topN : Nat}
    (hlen : sims.length = jobIds.length) {id : String}
    (hid : id ∈ topSelIds jobIds sims topN) : id ∈ jobIds := by
  rcases List.mem_map.mp hid with ⟨i, hi, rfl⟩
  have hil : i < jobIds.length := hlen ▸ topIndices_mem_lt hi
  rw [List.getD_eq_getElem _ _ hil]
  exact List.getElem_mem hil

lemma lookup_append (l1 l2 : List (String × ℚ)) (k : String) :
    (l1 ++ l2).lookup k =
      match l1.lookup k with
      | some v => some v
      | none => l2.lookup k := by
  induction l1 with
  | nil => rfl
  | cons p rest ih =>
      rcases p with ⟨a, b⟩
      rw [List.cons_append, List.lookup_cons, List.lookup_cons]
      cases hka : k == a
      · simpa using ih
      · simp

lemma lookup_eq_none_of_not_mem {pairs : List (String × ℚ)} {k : String}
    (h : k ∉ pairs.map Prod.fst) : pairs.lookup k = none := by
  induction pairs with
  | nil => rfl
  | cons p rest ih =>
      rcases p with ⟨a, b⟩
      have h1 : k ≠ a := fun he => h (by simp [he])
      have h2 : k ∉ rest.map Prod.fst := fun hm => h (by simp [hm])
      rw [List.lookup_cons]
      rw [beq_eq_false_iff_ne.mpr h1]
      exact ih h2

lemma lookup_reverse {pairs : List (String × ℚ)}
    (hnd : (pairs.map Prod.fst).Nodup) (k : String) :
    pairs.reverse.lookup k = pairs.lookup k := by
  induction pairs with
  | nil => rfl
  | cons p rest ih =>
      rcases p with ⟨a, b⟩
      rw [List.map_cons, List.nodup_cons] at hnd
      rw [List.reverse_cons, lookup_append, ih hnd.2, List.lookup_cons]
      cases hka : k == a
      · cases hr : rest.lookup k <;> simp [List.lookup_cons, hka, hr]
      · have hk : k = a := eq_of_beq hka
        have hnone : rest.lookup k = none :=
          lookup_eq_none_of_not_mem (by rw [hk]; exact hnd.1)
        simp [hnone, List.lookup_cons, hka]

lemma lookup_zip :
    ∀ (ids : List String) (vals : List ℚ), ids.Nodup →
      ∀ k : Nat, k < ids.length → k < vals.length →
        (ids.zip vals).lookup (ids.getD k "") = some (vals.getD k 0) := by
  intro ids
  induction ids with
  | nil =>
      intro vals _ k hk _
      simp at hk
  | cons a rest ih =>
      intro vals hnd k hk hv
      cases vals with
      | nil => simp at hv
      | cons v vrest =>
          rw [List.nodup_cons] at hnd
          cases k with
          | zero => simp [List.zip_cons_cons, List.lookup_cons]
          | succ k2 =>
              have hk2 : k2 < rest.length := by simpa using hk
              have hv2 : k2 < vrest.length := by simpa using hv
              have hmem : rest.getD k2 "" ∈ rest := by
                rw [List.getD_eq_getElem _ _ hk2]
                exact List.getElem_mem hk2
              have hne : (rest.getD k2 "" == a) = false :=
                beq_eq_false_iff_ne.mpr (fun he => hnd.1 (he ▸ hmem))
              rw [List.zip_cons_cons, List.getD_cons_succ, List.getD_cons_succ,
                List.lookup_cons, hne]
              exact ih vrest hnd.2 k2 hk2 hv2

lemma dictLookupLast_zip {ids : List String} {vals : List ℚ} (hnd : ids.Nodup)
    (hlen : vals.length = ids.length) (k : Nat) (hk : k < ids.length) :
    dictLookupLast (ids.zip vals) (ids.getD k "") = some (vals.getD k 0) := by
  unfold dictLookupLast
  have hkeys : ((ids.zip vals).map Prod.fst).Nodup := by
    rw [List.map_fst_zip ids vals (by omega)]
    exact hnd
  rw [lookup_reverse hkeys]
  exact lookup_zip ids vals hnd k hk (by omega)

lemma topSelScores_getD {sims : List ℚ} {topN k : Nat}
    (hk : k < (topIndices sims topN).length) :
    (topSelScores sims topN).getD k 0 =
      sims.getD ((topIndices sims topN).getD k 0) 0 := by
  unfold topSelScores
  rw [List.getD_eq_getElem _ _ (by simpa using hk), List.getElem_map,
    List.getD_eq_getElem _ _ hk]

lemma topSelIds_getD (jobIds : List String) {sims : List ℚ} {topN k : Nat}
    (hk : k < (topIndices sims topN).length) :
    (topSelIds jobIds sims topN).getD k "" =
      jobIds.getD ((topIndices sims topN).getD k 0) "" := by
  unfold topSelIds
  rw [List.getD_eq_getElem _ _ (by simpa using hk), List.getElem_map,
    List.getD_eq_getElem _ _ hk]

/-- Every `matchResults` row is a (posting id, score) pair read off a
selected index. -/
lemma matchResults_mem_charac {jobsClean jobIds : List String} {sims : List ℚ}
    {topN : Nat} (hnodI : jobIds.Nodup) (hlen : sims.length = jobIds.length)
    {p : String × ℚ} (hp : p ∈ matchResults jobsClean jobIds sims topN) :
    ∃ i, i ∈ topIndices sims topN ∧ jobIds.getD i "" = p.1 ∧
      sims.getD i 0 = p.2 := by
  unfold matchResults at hp
  rcases List.mem_map.mp hp with ⟨id, hid, rfl⟩
  have hidT : id ∈ topSelIds jobIds sims topN := by
    have := (List.mem_filter.mp hid).2
    simpa [List.contains, List.elem_iff] using this
  rcases List.mem_iff_getElem.mp hidT with ⟨k, hkl, hkeq⟩
  have hkt : k < (topIndices sims topN).length := by
    simpa [topSelIds] using hkl
  have hids : (topSelIds jobIds sims topN).getD k "" = id := by
    rw [List.getD_eq_getElem _ _ hkl]
    exact hkeq
  have hnodT : (topSelIds jobIds sims topN).Nodup := topSelIds_nodup hnodI hlen
  have hlens : (topSelScores sims topN).length = (topSelIds jobIds sims topN).length := by
    simp [topSelScores, topSelIds]
  have hlook := dictLookupLast_zip hnodT hlens k hkl
  rw [hids] at hlook
  refine ⟨(topIndices sims topN).getD k 0, ?_, ?_, ?_⟩
  · rw [List.getD_eq_getElem _ _ hkt]
    exact List.getElem_mem hkt
  · rw [← topSelIds_getD jobIds hkt]
    exact hids
  · rw [← topSelScores_getD hkt]
    rw [hlook]
    rfl

lemma matchResults_map_fst (jobsClean jobIds : List String) (sims : List ℚ)
    (topN : Nat) :
    (matchResults jobsClean jobIds sims topN).map Prod.fst =
      jobsClean.filter fun id => (topSelIds jobIds sims topN).contains id := by
  unfold matchResults
  rw [List.map_map]
  exact List.map_id' _

lemma matchResults_fst_mem {jobsClean jobIds : List String} {sims : List ℚ}
    {topN : Nat} (hlen : sims.length = jobIds.length)
    (hmem : ∀ id, id ∈ jobsClean ↔ id ∈ jobIds) (id' : String) :
    id' ∈ (matchResults jobsClean jobIds sims topN).map Prod.fst ↔
      id' ∈ topSelIds jobIds sims topN := by
  rw [matchResults_map_fst]
  constructor
  · intro h
    have := (List.mem_filter.mp h).2
    simpa [List.contains, List.elem_iff] using this
  · intro h
    refine List.mem_filter.mpr ⟨(hmem id').mpr (topSelIds_mem_jobIds hlen h), ?_⟩
    simpa [List.contains, List.elem_iff] using h

lemma matchResults_length (jobsClean jobIds : List String) (sims : List ℚ)
    (topN : Nat) (hnodJ : jobsClean.Nodup) (hnodI : jobIds.Nodup)
    (hlen : sims.length = jobIds.length)
    (hmem : ∀ id, id ∈ jobsClean ↔ id ∈ jobIds) :
    (matchResults jobsClean jobIds sims topN).length =
      (topIndices sims topN).length := by
  have h1 : (matchResults jobsClean jobIds sims topN).length =
      ((matchResults jobsClean jobIds sims topN).map Prod.fst).length := by
    rw [List.length_map]
  rw [h1]
  have hfiltnd : ((matchResults jobsClean jobIds sims topN).map Prod.fst).Nodup := by
    rw [matchResults_map_fst]
    exact List.Nodup.filter _ hnodJ
  have hperm : ((matchResults jobsClean jobIds sims topN).map Prod.fst).Perm
      (topSelIds jobIds sims topN) :=
    (List.perm_ext_iff_of_nodup hfiltnd (topSelIds_nodup hnodI hlen)).mpr
      (matchResults_fst_mem hlen hmem)
  rw [hperm.length_eq]
  unfold topSelIds
  rw [List.length_map]

/-- C5 counterexample: with two profiles tied at the same cosine similarity
and `top_n = 1`, the engine returns posting "B" — the slice
`argsort()[-top_n:][::-1]` keeps the tied posting with the *larger* original
index, whereas the claim's tie-break by original posting order would return
posting "A". -/
theorem query_tie_break_counterexample :
    findMatchingJobs ["A", "B"]
        [{ system_job_id := "A", skill_text := "x" },
         { system_job_id := "B", skill_text := "y" }] none [1, 1] 1 = [("B", 1)] ∧
    "A" ∉ (findMatchingJobs ["A", "B"]
        [{ system_job_id := "A", skill_text := "x" },
         { system_job_id := "B", skill_text := "y" }] none [1, 1] 1).map Prod.fst := by
  constructor
  · decide
  · decide

/-- C5 (corrected): under the alignment hypotheses that hold in the source
(the index id list and similarity row have equal lengths, posting ids are
unique, and `jobs_clean` contains exactly the indexed ids), the query
returns exactly `min top_n n` postings; the result is sorted by weakly
descending `match_score`; every returned pair is a (posting id, its
similarity); and every unreturned index scores strictly below every
returned posting, or ties with it and has a strictly *smaller* index — the
ties are broken toward the *later* original posting, not the earlier one. -/
theorem query_ranking_characterization (jobsClean : List String)
    (profiles : List ProfileRow) (indexIds : Option (List String)) (sims : List ℚ)
    (topN : Nat) (hne : profiles ≠ [])
    (hlen : sims.length = (indexJobIds profiles indexIds).length)
    (hnodI : (indexJobIds profiles indexIds).Nodup) (hnodJ : jobsClean.Nodup)
    (hmem : ∀ id, id ∈ jobsClean ↔ id ∈ indexJobIds profiles indexIds) :
    (findMatchingJobs jobsClean profiles indexIds sims topN).length =
      min topN sims.length ∧
    List.Pairwise (fun a b : String × ℚ => b.2 ≤ a.2)
      (findMatchingJobs jobsClean profiles indexIds sims topN) ∧
    (∀ p ∈ findMatchingJobs jobsClean profiles indexIds sims topN,
      ∃ i : Nat, i < sims.length ∧
        (indexJobIds profiles indexIds).getD i "" = p.1 ∧ sims.getD i 0 = p.2 ∧
        ∀ j : Nat, j < sims.length →
          (indexJobIds profiles indexIds).getD j "" ∉
            (findMatchingJobs jobsClean profiles indexIds sims topN).map Prod.fst →
          (sims.getD j 0 < sims.getD i 0 ∨
            (sims.getD j 0 = sims.getD i 0 ∧ j < i))) := by
  have hprof : ¬ profiles.isEmpty = true := by
    simpa [List.isEmpty_iff] using hne
  have hMRlen := matchResults_length jobsClean (indexJobIds profiles indexIds)
    sims topN hnodJ hnodI hlen hmem
  have hsortlen :
      ((List.insertionSort (byKeyDesc (fun q : Nat × (String × ℚ) => q.2.2) Prod.fst)
        (matchResults jobsClean (indexJobIds profiles indexIds) sims topN).enum).map
          Prod.snd).length =
        (topIndices sims topN).length := by
    rw [List.length_map, (List.perm_insertionSort _ _).length_eq, List.enum_length,
      hMRlen]
  have hpairwise :
      List.Pairwise (fun a b : String × ℚ => b.2 ≤ a.2)
        ((List.insertionSort (byKeyDesc (fun q : Nat × (String × ℚ) => q.2.2) Prod.fst)
          (matchResults jobsClean (indexJobIds profiles indexIds) sims topN).enum).map
            Prod.snd) := by
    refine List.Pairwise.map _ ?_ (List.sorted_insertionSort _ _)
    intro a b hab
    rcases hab with hlt | ⟨heq, _⟩
    · exact le_of_lt hlt
    · exact le_of_eq heq.symm
  have hmempm : ∀ q : String × ℚ,
      q ∈ (List.insertionSort (byKeyDesc (fun q : Nat × (String × ℚ) => q.2.2) Prod.fst)
        (matchResults jobsClean (indexJobIds profiles indexIds) sims topN).enum).map
          Prod.snd ↔
        q ∈ matchResults jobsClean (indexJobIds profiles indexIds) sims topN := by
    intro q
    have hperm := (List.perm_insertionSort
      (byKeyDesc (fun q : Nat × (String × ℚ) => q.2.2) Prod.fst)
      (matchResults jobsClean (indexJobIds profiles indexIds) sims topN).enum).map
        Prod.snd
    rw [List.enum_map_snd] at hperm
    exact hperm.mem_iff
  unfold findMatchingJobs
  rw [if_neg hprof]
  by_cases h0 : topN = 0
  · subst h0
    refine ⟨?_, ?_, ?_⟩
    · simp
    · simp
    · intro p hp
      simp at hp
  · have htl : (topIndices sims topN).length = min topN sims.length :=
      topIndices_length (by omega)
    have hcover : ((List.insertionSort
        (byKeyDesc (fun q : Nat × (String × ℚ) => q.2.2) Prod.fst)
        (matchResults jobsClean (indexJobIds profiles indexIds) sims topN).enum).map
          Prod.snd).take topN =
        (List.insertionSort (byKeyDesc (fun q : Nat × (String × ℚ) => q.2.2) Prod.fst)
          (matchResults jobsClean (indexJobIds profiles indexIds) sims topN).enum).map
            Prod.snd :=
      List.take_of_length_le (by rw [hsortlen, htl]; omega)
    rw [hcover]
    refine ⟨?_, hpairwise, ?_⟩
    · rw [hsortlen, htl]
    · intro p hp
      have hpM := (hmempm p).mp hp
      rcases matchResults_mem_charac hnodI hlen hpM with ⟨i, hiT, hid, hsc⟩
      refine ⟨i, topIndices_mem_lt hiT, hid, hsc, ?_⟩
      intro j hj hjnot
      have hjT : j ∉ topIndices sims topN := by
        intro hjin
        apply hjnot
        rw [List.mem_map]
        have hidT : (indexJobIds profiles indexIds).getD j "" ∈
            topSelIds (indexJobIds profiles indexIds) sims topN :=
          List.mem_map.mpr ⟨j, hjin, rfl⟩
        have := (matchResults_fst_mem hlen hmem
          ((indexJobIds profiles indexIds).getD j "")).mpr hidT
        rcases List.mem_map.mp this with ⟨q, hq, hqe⟩
        exact ⟨q, (hmempm q).mpr hq, hqe⟩
      exact topIndices_optimal i hiT j hj hjT

/-- C5 witness: a concrete aligned instance returning exactly
`min top_n n` postings. -/
theorem query_ranking_characterization_witness :
    (findMatchingJobs ["A", "B"]
        [{ system_job_id := "A", skill_text := "x" },
         { system_job_id := "B", skill_text := "y" }] none [1, 0] 1).length =
      min 1 2 :=
  (query_ranking_characterization ["A", "B"]
    [{ system_job_id := "A", skill_text := "x" },
     { system_job_id := "B", skill_text := "y" }] none [1, 0] 1 (by decide) rfl
    (by decide) (by decide) (fun _ => Iff.rfl)).1

lemma findMatchingJobs_length (jobsClean : List String) (profiles : List ProfileRow)
    (indexIds : Option (List String)) (sims : List ℚ) (topN : Nat)
    (hne : profiles ≠ [])
    (hlen : sims.length = (indexJobIds profiles indexIds).length)
    (hnodI : (indexJobIds profiles indexIds).Nodup) (hnodJ : jobsClean.Nodup)
    (hmem : ∀ id, id ∈ jobsClean ↔ id ∈ indexJobIds profiles indexIds) :
    (findMatchingJobs jobsClean profiles indexIds sims topN).length =
      min topN sims.length := by
  have hprof : ¬ profiles.isEmpty = true := by
    simpa [List.isEmpty_iff] using hne
  have hMRlen := matchResults_length jobsClean (indexJobIds profiles indexIds)
    sims topN hnodJ hnodI hlen hmem
  unfold findMatchingJobs
  rw [if_neg hprof, List.length_take, List.length_map,
    (List.perm_insertionSort _ _).length_eq, List.enum_length, hMRlen]
  by_cases h0 : topN = 0
  · subst h0
    simp [topIndices, pyTakeLast, argsortAsc_length]
  · rw [topIndices_length (by omega)]
    omega

/-- C10 (confirmed): for a non-empty aligned profile collection the result is
filled to `min top_n n` postings regardless of the similarity values, and in
the concrete two-profile instance with similarities `[1, 0]` the
zero-similarity posting "B" is returned with `match_score = 0` — membership
in the result does not imply positive similarity. -/
theorem query_zero_similarity_inclusion (jobsClean : List String)
    (profiles : List ProfileRow) (indexIds : Option (List String)) (sims : List ℚ)
    (topN : Nat) (hne : profiles ≠ [])
    (hlen : sims.length = (indexJobIds profiles indexIds).length)
    (hnodI : (indexJobIds profiles indexIds).Nodup) (hnodJ : jobsClean.Nodup)
    (hmem : ∀ id, id ∈ jobsClean ↔ id ∈ indexJobIds profiles indexIds) :
    (findMatchingJobs jobsClean profiles indexIds sims topN).length =
      min topN sims.length ∧
    findMatchingJobs ["A", "B"]
        [{ system_job_id := "A", skill_text := "x" },
         { system_job_id := "B", skill_text := "y" }] none [1, 0] 2 =
      [("A", 1), ("B", 0)] := by
  refine ⟨findMatchingJobs_length jobsClean profiles indexIds sims topN hne hlen
    hnodI hnodJ hmem, ?_⟩
  decide

/-- C10 witness: the concrete instance itself satisfies both conjuncts. -/
theorem query_zero_similarity_inclusion_witness :
    (findMatchingJobs ["A", "B"]
        [{ system_job_id := "A", skill_text := "x" },
         { system_job_id := "B", skill_text := "y" }] none [1, 0] 2).length =
      min 2 2 ∧
    findMatchingJobs ["A", "B"]
        [{ system_job_id := "A", skill_text := "x" },
         { system_job_id := "B", skill_text := "y" }] none [1, 0] 2 =
      [("A", 1), ("B", 0)] :=
  query_zero_similarity_inclusion ["A", "B"]
    [{ system_job_id := "A", skill_text := "x" },
     { system_job_id := "B", skill_text := "y" }] none [1, 0] 2 (by decide) rfl
    (by decide) (by decide) (fun _ => Iff.rfl)

lemma inferRequirementsRow_spec (row : PostingRow) :
    ReqRowSpec row (inferRequirementsRow row) := by
  unfold ReqRowSpec
  by_cases hE : normalizeExistingRequirement row.requirements_min_education = "" <;>
    by_cases hEI : inferEducationFromText (row.title ++ " " ++ row.description) = "" <;>
      by_cases hX : normalizeExistingRequirement row.requirements_experience = "" <;>
        by_cases hXI :
          inferExperienceFromText (row.title ++ " " ++ row.description) = "" <;>
          refine ⟨?_, ?_, ?_, ?_, ?_, ?_, ?_, ?_⟩ <;>
            simp [inferRequirementsRow, hE, hEI, hX, hXI]

/-- C1 counterexample: on the spec's worked example (empty structured
fields, description "Requires Bachelor's degree and 3-5 years experience")
the code emits source value `"nlp_inferred"`, which is none of the three
values `{dataset, inferred, not_specified}` the claim allows — in
particular it is not the claimed `"inferred"`. -/
theorem requirements_source_token_counterexample :
    (inferEducationAndExperience [exampleJobPosting]).map
        (fun r => (r.education_source, r.experience_source)) =
      [("nlp_inferred", "nlp_inferred")] ∧
    ¬("nlp_inferred" = "dataset" ∨ "nlp_inferred" = "inferred" ∨
      "nlp_inferred" = "not_specified") := by
  constructor
  · rfl
  · decide

/-- C1 (corrected): every emitted source value is drawn from
{dataset, nlp_inferred, not_specified}: a non-empty non-sentinel structured
field is used (whitespace-trimmed) verbatim with source "dataset", a
regex-derived value carries source "nlp_inferred" (not "inferred"), and
absence of both yields "not_specified"; the worked example yields
education_display "Bachelor's Degree" and experience_display "3-5 years",
both with source "nlp_inferred". -/
theorem requirements_inference_sources :
    (∀ (rows : List PostingRow) (out : RequirementsRow),
      out ∈ inferEducationAndExperience rows →
        ∃ row ∈ rows, out = inferRequirementsRow row ∧ ReqRowSpec row out) ∧
    inferEducationAndExperience [exampleJobPosting] =
      [{ system_job_id := "P1",
         education_display := "Bachelor" ++ apos.toString ++ "s Degree",
         education_source := "nlp_inferred",
         experience_display := "3-5 years",
         experience_source := "nlp_inferred" }] := by
  constructor
  · intro rows out hout
    rcases List.mem_map.mp hout with ⟨row, hrow, rfl⟩
    exact ⟨row, hrow, rfl, inferRequirementsRow_spec row⟩
  · rfl

/-- C1 witness: the worked example row itself satisfies the per-row
contract. -/
theorem requirements_inference_sources_witness :
    ∃ row ∈ [exampleJobPosting],
      inferRequirementsRow exampleJobPosting = inferRequirementsRow row ∧
        ReqRowSpec row (inferRequirementsRow exampleJobPosting) :=
  requirements_inference_sources.1 [exampleJobPosting]
    (inferRequirementsRow exampleJobPosting)
    (List.mem_map.mpr ⟨exampleJobPosting, List.mem_singleton.mpr rfl, rfl⟩)
